import Mathlib

/-!
Verification development for `bitraster.c` (terminal_bitraster).

The C program is shallowly embedded: the byte buffer is a `List Nat`
(each entry is one `uint8_t` cell; all values handled stay below 256),
machine-integer coordinates (`int`, `off_t`) become `Int`, and
unsigned sizes (`size_t`) become `Nat`.  Where C performs an
int/size_t comparison, the signed operand is converted through
`usize64` (the `size_t` conversion, i.e. reduction mod 2^64), exactly
as the C integer conversions prescribe; `size_t` index and size
arithmetic that can overflow (the bit-index computation of
`getbit`/`setbit`, the window-size product in `update`) carries an
explicit `% 2 ^ 64`.
-/

namespace Bitraster

/-- The three globals that `getbit`/`setbit` consult
(`buffer_width`, `buffer_size`, `reverse_byte`, bitraster.c lines 39-46). -/
structure BitCfg where
  buffer_width : Nat
  buffer_size : Nat
  reverse_byte : Bool
deriving DecidableEq

/-- `getbit` (bitraster.c lines 162-183).  `x`, `y` are C `int`s.  Both guard
comparisons against the `size_t` globals happen after `x < 0` / `y < 0`
short-circuit, so those conversions are value-preserving; the `size_t`
computation `bit_index = y*buffer_width + x`, however, wraps modulo `2^64`,
which is observable with user-chosen widths near `2^61` and is modelled by
the explicit `% 2 ^ 64`. -/
def getbit (cfg : BitCfg) (buf : List Nat) (x y : Int) : Nat :=
  if x < 0 ∨ (cfg.buffer_width : Int) ≤ x ∨ y < 0 then 0
  else
    let bit_index : Nat := (y.toNat * cfg.buffer_width + x.toNat) % 2 ^ 64
    let byte_index : Nat := bit_index / 8
    if cfg.buffer_size ≤ byte_index then 0
    else
      let byte_shift : Nat := if cfg.reverse_byte then bit_index % 8 else 7 - bit_index % 8
      (buf.getD byte_index 0 >>> byte_shift) &&& 1

/-- `setbit` (bitraster.c lines 185-206).  Note the guards really are
`x > buffer_width` and `byte_index > buffer_size` (strict), so `x = width`
and `byte_index = buffer_size` slip through; a write at
`byte_index = buffer_size` is a one-past-the-end heap write in C, which the
list model renders as `List.set` past the end (a no-op on the modelled bytes). -/
def setbit (cfg : BitCfg) (buf : List Nat) (x y : Int) : List Nat :=
  if x < 0 ∨ (cfg.buffer_width : Int) < x ∨ y < 0 then buf
  else
    let bit_index : Nat := (y.toNat * cfg.buffer_width + x.toNat) % 2 ^ 64
    let byte_index : Nat := bit_index / 8
    if cfg.buffer_size < byte_index then buf
    else
      let byte_shift : Nat := if cfg.reverse_byte then bit_index % 8 else 7 - bit_index % 8
      buf.set byte_index (buf.getD byte_index 0 ||| (1 <<< byte_shift))

/-- The 64-entry glyph table `sextant_chars` (bitraster.c lines 208-217). -/
def sextant_chars : List Nat :=
  [0x00020,0x1FB1E,0x1FB0F,0x1FB2D,0x1FB07,0x1FB26,0x1FB16,0x1FB35,
   0x1FB03,0x1FB22,0x1FB13,0x1FB31,0x1FB0B,0x1FB29,0x1FB1A,0x1FB39,
   0x1FB01,0x1FB20,0x1FB11,0x1FB2F,0x1FB09,0x02590,0x1FB18,0x1FB37,
   0x1FB05,0x1FB24,0x1FB14,0x1FB33,0x1FB0D,0x1FB2B,0x1FB1C,0x1FB3B,
   0x1FB00,0x1FB1F,0x1FB10,0x1FB2E,0x1FB08,0x1FB27,0x1FB17,0x1FB36,
   0x1FB04,0x1FB23,0x0258C,0x1FB32,0x1FB0C,0x1FB2A,0x1FB1B,0x1FB3A,
   0x1FB02,0x1FB21,0x1FB12,0x1FB30,0x1FB0A,0x1FB28,0x1FB19,0x1FB38,
   0x1FB06,0x1FB25,0x1FB15,0x1FB34,0x1FB0E,0x1FB2C,0x1FB1D,0x02588]

/-- The 6-bit glyph index built by the renderer for one character cell
(`update`, bitraster.c lines 304-311).  `index` is a `uint8_t`, but every
intermediate value stays below 64, so plain `Nat` arithmetic is faithful. -/
def cell_index (cfg : BitCfg) (buf : List Nat) (col_offset : Int)
    (char_x char_y : Nat) : Nat :=
  let off_x : Int := col_offset + (char_x : Int) * 2
  let cy : Int := (char_y : Int)
  let i1 := (0 <<< 1) ||| getbit cfg buf off_x (cy * 3)
  let i2 := (i1 <<< 1) ||| getbit cfg buf (off_x + 1) (cy * 3)
  let i3 := (i2 <<< 1) ||| getbit cfg buf off_x (cy * 3 + 1)
  let i4 := (i3 <<< 1) ||| getbit cfg buf (off_x + 1) (cy * 3 + 1)
  let i5 := (i4 <<< 1) ||| getbit cfg buf off_x (cy * 3 + 2)
  let i6 := (i5 <<< 1) ||| getbit cfg buf (off_x + 1) (cy * 3 + 2)
  i6

/-- `step_life` (bitraster.c lines 318-350).  The scratch `life_buffer` is
freshly zeroed (`memset`), filled cell by cell, and finally copied over the
live buffer (`memcpy`); the function returns the copied-over buffer. -/
def step_life (cfg : BitCfg) (buf : List Nat) : List Nat :=
  let h := cfg.buffer_size * 8 / cfg.buffer_width
  (List.range h).foldl (fun acc y =>
    (List.range cfg.buffer_width).foldl (fun acc2 x =>
      let xi : Int := (x : Int)
      let yi : Int := (y : Int)
      let count :=
        getbit cfg buf (xi - 1) (yi - 1) + getbit cfg buf xi (yi - 1) +
        getbit cfg buf (xi + 1) (yi - 1) + getbit cfg buf (xi - 1) yi +
        getbit cfg buf (xi + 1) yi + getbit cfg buf (xi - 1) (yi + 1) +
        getbit cfg buf xi (yi + 1) + getbit cfg buf (xi + 1) (yi + 1)
      if getbit cfg buf xi yi ≠ 0 then
        if count = 2 ∨ count = 3 then setbit cfg acc2 xi yi else acc2
      else
        if count = 3 then setbit cfg acc2 xi yi else acc2)
      acc)
    (List.replicate cfg.buffer_size 0)

/-- Conversion of a signed C value to `size_t` (reduction mod `2^64`),
as performed by the usual arithmetic conversions in mixed
`int`/`off_t` vs `size_t` comparisons. -/
def usize64 (i : Int) : Nat := (i % (2 ^ 64 : Int)).toNat

/-- The viewer's global state as consulted and mutated by `update`
(bitraster.c lines 39-52).  `fd_size` is an `off_t` known to be nonnegative
(it comes from a checked `lseek`), hence a `Nat`. -/
structure ViewerState where
  offset : Int
  fd_size : Nat
  buffer : List Nat
  buffer_size : Nat
  buffer_offset : Int
  buffer_width : Nat
  last_term_w : Int
  last_term_h : Int
  col_offset : Int
deriving DecidableEq

/-- Rounding of `buffer_width` down to a multiple of 8
(bitraster.c lines 237-239). -/
def round8 (w : Nat) : Nat := if w % 8 ≠ 0 then w - w % 8 else w

/-- Ceiling division by 8 as written in `update`
(bitraster.c lines 244-250). -/
def ceil_div8 (n : Nat) : Nat := if n % 8 ≠ 0 then n / 8 + 1 else n / 8

/-- The two offset clamps of `update` (bitraster.c lines 266-271).  The C
comparison `offset + buffer_size > fd_size` adds an `off_t` to a `size_t`,
so `offset` is converted to `size_t` first: `usize64` models that.  The
assignment `offset = fd_size - buffer_size` never wraps because
`buffer_size ≤ fd_size` at this point, so it is plain integer subtraction. -/
def clamp_offset (fd_size nbs : Nat) (off : Int) : Int :=
  let o1 : Int :=
    if usize64 (off + (nbs : Int)) > fd_size then (fd_size : Int) - (nbs : Int) else off
  if o1 < 0 then 0 else o1

/-- The column-offset clamp of `update` (bitraster.c lines 286-291).  As in
`clamp_offset`, the comparison converts the `int` sum to `size_t`; the
assignment `col_offset = buffer_width - term_w*2` goes through unsigned
subtraction and truncation back to `int`, which for the in-range values
quantified over here equals the plain integer difference. -/
def clamp_col (bw tw : Nat) (col : Int) : Int :=
  let c1 : Int :=
    if usize64 (col + (tw : Int) * 2) > bw then (bw : Int) - (tw : Int) * 2 else col
  if c1 < 0 then 0 else c1

/-- The `buffer_width` value after the width defaulting and rounding steps of
`update` (bitraster.c lines 232-239). -/
def new_width (term_w : Nat) (st : ViewerState) : Nat :=
  round8 (if st.buffer_width = 0 then term_w * 2 else st.buffer_width)

/-- The `new_buffer_size` computation of `update` (bitraster.c lines 244-253):
ceiling byte count for `term_h*3` rows, capped at `fd_size`.  The `size_t`
product `(term_h*3) * buffer_width` wraps modulo `2^64` (observable with
user-chosen widths near `2^61`), hence the explicit `% 2 ^ 64`. -/
def new_size (term_w term_h : Nat) (st : ViewerState) : Nat :=
  if ceil_div8 ((term_h * 3 * new_width term_w st) % 2 ^ 64) > st.fd_size then st.fd_size
  else ceil_div8 ((term_h * 3 * new_width term_w st) % 2 ^ 64)

/-- The fetch branch of `update` (bitraster.c lines 229-284): recompute width
and window size, clamp the offset, read `buffer_size` bytes of `src` at the
clamped offset, record the terminal size and the fetched offset.  The column
clamp of lines 286-291 runs right after the branch and is folded in here with
the just-updated width.  A successful full read is assumed (a short read is a
fatal `ERROR` exit, outside this state transformer). -/
def update_fetch (src : List Nat) (term_w term_h : Nat) (st : ViewerState) :
    ViewerState :=
  { st with
      buffer_width := new_width term_w st
      buffer_size := new_size term_w term_h st
      offset := clamp_offset st.fd_size (new_size term_w term_h st) st.offset
      buffer := (List.range (new_size term_w term_h st)).map fun i =>
        src.getD ((clamp_offset st.fd_size (new_size term_w term_h st) st.offset).toNat + i) 0
      last_term_h := (term_h : Int)
      last_term_w := (term_w : Int)
      buffer_offset := clamp_offset st.fd_size (new_size term_w term_h st) st.offset
      col_offset := clamp_col (new_width term_w st) term_w st.col_offset }

/-- `update` (bitraster.c lines 219-316) up to and including the clamping,
seek and read; the rendering loop that follows only reads state (its per-cell
index computation is modelled by `cell_index`).  `src` is the file contents,
`term_w`/`term_h` the terminal geometry for this call.  The returned `Bool`
records whether the seek-and-read ("fetch") branch ran.  When the branch is
skipped only the column clamp (lines 286-291) runs, on the unchanged width. -/
def update (src : List Nat) (term_w term_h : Nat) (st : ViewerState) :
    ViewerState × Bool :=
  if (term_h : Int) ≠ st.last_term_h ∨ (term_w : Int) ≠ st.last_term_w ∨
      st.buffer_offset ≠ st.offset then
    (update_fetch src term_w term_h st, true)
  else
    ({ st with col_offset := clamp_col st.buffer_width term_w st.col_offset }, false)

/-- Modelled libc `strtoul` with base 0, restricted to the plain decimal
arguments exercised here: leading decimal digits are parsed greedily and an
empty or non-numeric prefix yields 0; the `errno`/overflow path is not
modelled (so the `if (errno)` branches of `main` are never taken). -/
def strtoul0 (cs : List Char) : Nat :=
  (cs.takeWhile fun c => c.isDigit).foldl (fun n c => n * 10 + (c.toNat - 48)) 0

/-- The basename scan at the top of `usage` (bitraster.c lines 70-77):
the suffix of `cmd` after the last '/'. -/
def cmd_filename (cmd : String) : String :=
  String.mk ((cmd.data.reverse.takeWhile fun c => c ≠ '/').reverse)

/-- The lines `usage` prints to stderr (bitraster.c lines 78-86). -/
def usage_lines (cf : String) : List String :=
  ["Usage:\n",
   cf ++ " [-h] [-r] [-wWidth] [-oOffset] [-dDelayMS] [path]\n",
   "\n",
   "  -w : Bit width of buffer (controls horizontal scroll)\n",
   "       Width must be a multple of 8 bits.\n",
   "  -o : Initial Byte offset into file\n",
   "  -d : Delay, in millisecons, or any automatic updates\n",
   "\n",
   "If path is not provided, data is streamed from stdin, -w and -o are ignored\n"]

/-- The options state accumulated by `main`'s argument loop
(globals, bitraster.c lines 39-50): `fd` is `some size` once a file has been
opened and its size read. -/
structure ParseSt where
  reverse_byte : Bool
  buffer_width : Nat
  offset : Int
  delay_ms : Nat
  fd : Option Nat
deriving DecidableEq

/-- Initial values of the option globals (bitraster.c lines 39-50). -/
def init_parse_st : ParseSt :=
  { reverse_byte := false, buffer_width := 0, offset := 0, delay_ms := 250, fd := none }

/-- Outcome of `main`'s argument loop: either the process exited (with the
exit code and everything printed to stderr), or it proceeds to `stream()`
(no path given) or `run()` (file mode). -/
inductive ParseOutcome where
  | exited (code : Int) (errOut : List String)
  | streamMode (st : ParseSt)
  | fileMode (st : ParseSt)
deriving DecidableEq

/-- `usage` (bitraster.c lines 69-88): prints any preceding error message plus
the usage text to stderr and exits with code 0 (`exit(0)`). -/
def usage_exit (cmd : String) (pre : List String) : ParseOutcome :=
  .exited 0 (pre ++ usage_lines (cmd_filename cmd))

/-- `strcmp(a,b) == 0` on the modelled argument strings. -/
def strcmp_eq (a b : String) : Bool := a.data = b.data

/-- `strncmp(a,b,2) == 0`: the first two bytes agree (a shorter string
mismatches on its terminating NUL, exactly as `List.take 2` mismatches). -/
def strncmp2_eq (a b : String) : Bool := a.data.take 2 = b.data.take 2

/-- `main`'s argument loop (bitraster.c lines 517-574).  `fs` models
`open` + `lseek(fd,0,SEEK_END)`: `fs path = some size` when the path opens
with that size, `none` when `open` fails (the `lseek` failure branch is not
modelled separately).  The `strerror` insertions in the error messages are
not modelled; the format strings are kept.  After the loop, `main` calls
`stream()` when no file was opened, else `run()` (lines 576-581). -/
def parse_args (fs : String → Option Nat) (cmd : String) :
    List String → ParseSt → ParseOutcome
  | [], st => if st.fd.isNone then .streamMode st else .fileMode st
  | a :: rest, st =>
    if strcmp_eq a "-h" then usage_exit cmd []
    else if strcmp_eq a "-r" then parse_args fs cmd rest { st with reverse_byte := true }
    else if strncmp2_eq a "-w" then
      let w := strtoul0 (a.data.drop 2)
      if w % 8 ≠ 0 then usage_exit cmd ["Width is not even multiple of 8\n\n"]
      else parse_args fs cmd rest { st with buffer_width := w }
    else if strncmp2_eq a "-o" then
      let o : Int := (strtoul0 (a.data.drop 2) : Int)
      if o < 0 then usage_exit cmd ["Offset negative\n\n"]
      else parse_args fs cmd rest { st with offset := o }
    else if strncmp2_eq a "-d" then
      parse_args fs cmd rest { st with delay_ms := strtoul0 (a.data.drop 2) }
    else if st.fd.isNone then
      match fs a with
      | none => usage_exit cmd ["Path error: %s\n\n"]
      | some size => parse_args fs cmd rest { st with fd := some size }
    else usage_exit cmd []

/-- Exit code of the fatal-error macros `ERROR`/`TERM_ERROR`
(bitraster.c lines 66-67): `exit(-1)`. -/
def error_exit_code : Int := -1

/-- Exit code of every normal exit: `main` returns 0 after `run()` (quit key
or Escape) or `stream()` (upstream closed) return (bitraster.c line 583), and
the SIGINT handlers call `exit(0)` (lines 355, 462). -/
def normal_exit_code : Int := 0

/-- Spec-side ceiling `ceil(n/8)`.  Modelled from the spec:
"Compute desired window byte size as `ceil(terminalHeight * 3 * width / 8)`". -/
def ceil_div8_spec (n : Nat) : Nat := (n + 7) / 8

/-- Spec-side window size.  Modelled from the spec: "capped at the remaining
source size (`sourceSize - sourceOffset`, and overall capped at
`sourceSize`)", with the requested (pre-refresh) `sourceOffset`. -/
def window_size_claimed (term_h bw fd : Nat) (off : Int) : Nat :=
  min (min (ceil_div8_spec (term_h * 3 * bw)) ((fd : Int) - off).toNat) fd

/-- Concrete stale state for the clamping counterexample: reachable by
`bitraster -w8 file` (100-byte file), pressing `r` (life mode) and then `k`
on a 5x3 terminal: `offset` becomes `0 - 8/8 = -1` while disarming life sets
`buffer_offset = -1`, so `buffer_offset = offset` with unchanged terminal
dimensions and the fetch branch of `update` is skipped. -/
def st_stale : ViewerState :=
  { offset := -1, fd_size := 100, buffer := List.replicate 3 0, buffer_size := 3,
    buffer_offset := -1, buffer_width := 8, last_term_w := 5, last_term_h := 3,
    col_offset := 0 }

/-- Concrete state for the window-size counterexample: a 10-byte source
viewed at requested offset 8 with `-w8`, first fetch pending. -/
def st_tail : ViewerState :=
  { offset := 8, fd_size := 10, buffer := [], buffer_size := 0,
    buffer_offset := -1, buffer_width := 8, last_term_w := 0, last_term_h := 0,
    col_offset := 0 }

/-! ## Helper lemmas -/

theorem shiftRight_and_one (n s : Nat) :
    (n >>> s) &&& 1 = if n.testBit s then 1 else 0 := by
  rw [Nat.and_one_is_mod, Nat.shiftRight_eq_div_pow, Nat.testBit_to_div_mod]
  rcases Nat.mod_two_eq_zero_or_one (n / 2 ^ s) with h | h <;> simp [h]

theorem and_one_le (n : Nat) : n &&& 1 ≤ 1 := by
  rw [Nat.and_one_is_mod]; omega

theorem getbit_le_one (cfg : BitCfg) (buf : List Nat) (x y : Int) :
    getbit cfg buf x y ≤ 1 := by
  unfold getbit
  split
  · omega
  · dsimp only
    split
    · omega
    · exact and_one_le _

theorem lor_bit (a b : Nat) (hb : b ≤ 1) : a <<< 1 ||| b = 2 * a + b := by
  have h : 2 ^ 1 * a + b = 2 ^ 1 * a ||| b := Nat.mul_add_lt_is_or (by omega) a
  simp only [pow_one] at h
  rw [Nat.shiftLeft_eq, pow_one, Nat.mul_comm a 2, ← h]

theorem shift_or_getbit (a : Nat) (cfg : BitCfg) (buf : List Nat) (x y : Int) :
    a <<< 1 ||| getbit cfg buf x y = 2 * a + getbit cfg buf x y :=
  lor_bit a _ (getbit_le_one cfg buf x y)

theorem getD_zero_replicate (n i : Nat) :
    (List.replicate n (0 : Nat)).getD i 0 = 0 := by
  simp [List.getD_eq_getElem?_getD, List.getElem?_getD_replicate_default_eq]

theorem getbit_zeros (cfg : BitCfg) (n : Nat) (x y : Int) :
    getbit cfg (List.replicate n 0) x y = 0 := by
  simp [getbit, getD_zero_replicate]

theorem foldl_of_fixed {α β : Type} (f : α → β → α) (hf : ∀ a b, f a b = a) :
    ∀ (l : List β) (a : α), l.foldl f a = a := by
  intro l
  induction l with
  | nil => intro a; rfl
  | cons b t ih => intro a; rw [List.foldl_cons, hf a b]; exact ih a

theorem step_life_zeros (cfg : BitCfg) :
    step_life cfg (List.replicate cfg.buffer_size 0) =
      List.replicate cfg.buffer_size 0 := by
  simp only [step_life]
  refine foldl_of_fixed _ ?_ _ _
  intro a y
  refine foldl_of_fixed _ ?_ _ _
  intro a2 x
  simp [getbit_zeros]

theorem bit_index_inj {w a b a' b' : Nat} (ha : a < w) (ha' : a' < w)
    (h : b * w + a = b' * w + a') : a = a' ∧ b = b' := by
  have hw : 0 < w := Nat.lt_of_le_of_lt (Nat.zero_le a) ha
  have h1 : (b * w + a) % w = a := by
    rw [Nat.add_comm, Nat.add_mul_mod_self_right, Nat.mod_eq_of_lt ha]
  have h2 : (b' * w + a') % w = a' := by
    rw [Nat.add_comm, Nat.add_mul_mod_self_right, Nat.mod_eq_of_lt ha']
  have haa : a = a' := by rw [← h1, ← h2, h]
  refine ⟨haa, ?_⟩
  subst haa
  exact Nat.eq_of_mul_eq_mul_right hw (by omega)

theorem setbit_in_range (cfg : BitCfg) (buf : List Nat) (x y : Int)
    (hx0 : 0 ≤ x) (hx1 : x < (cfg.buffer_width : Int)) (hy0 : 0 ≤ y)
    (hb : (y.toNat * cfg.buffer_width + x.toNat) / 8 < cfg.buffer_size)
    (hnw : y.toNat * cfg.buffer_width + x.toNat < 2 ^ 64) :
    setbit cfg buf x y =
      buf.set ((y.toNat * cfg.buffer_width + x.toNat) / 8)
        (buf.getD ((y.toNat * cfg.buffer_width + x.toNat) / 8) 0 |||
          (1 <<< (if cfg.reverse_byte then (y.toNat * cfg.buffer_width + x.toNat) % 8
                  else 7 - (y.toNat * cfg.buffer_width + x.toNat) % 8))) := by
  unfold setbit
  have hg : ¬(x < 0 ∨ (cfg.buffer_width : Int) < x ∨ y < 0) := by omega
  rw [if_neg hg]
  dsimp only
  rw [Nat.mod_eq_of_lt hnw]
  have hg2 : ¬(cfg.buffer_size < (y.toNat * cfg.buffer_width + x.toNat) / 8) := by omega
  rw [if_neg hg2]

theorem getbit_in_range (cfg : BitCfg) (buf : List Nat) (x y : Int)
    (hx0 : 0 ≤ x) (hx1 : x < (cfg.buffer_width : Int)) (hy0 : 0 ≤ y)
    (hb : (y.toNat * cfg.buffer_width + x.toNat) / 8 < cfg.buffer_size)
    (hnw : y.toNat * cfg.buffer_width + x.toNat < 2 ^ 64) :
    getbit cfg buf x y =
      (buf.getD ((y.toNat * cfg.buffer_width + x.toNat) / 8) 0 >>>
        (if cfg.reverse_byte then (y.toNat * cfg.buffer_width + x.toNat) % 8
         else 7 - (y.toNat * cfg.buffer_width + x.toNat) % 8)) &&& 1 := by
  unfold getbit
  have hg : ¬(x < 0 ∨ (cfg.buffer_width : Int) ≤ x ∨ y < 0) := by omega
  rw [if_neg hg]
  dsimp only
  rw [Nat.mod_eq_of_lt hnw]
  have hg2 : ¬(cfg.buffer_size ≤ (y.toNat * cfg.buffer_width + x.toNat) / 8) := by omega
  rw [if_neg hg2]

/-! ## Claims -/

/-- C1 (code bug in `setbit`): the out-of-range coordinate `x = 8` on an
8-bit-wide, 2-byte buffer slips past the `x > buffer_width` guard and writes
bit 7 of byte 1: the buffer does not stay unchanged. -/
theorem setbit_oob_write :
    setbit ⟨8, 2, false⟩ [0, 0] 8 0 = [0, 128] ∧ ([0, 128] : List Nat) ≠ [0, 0] := by
  decide

/-- C2 counterexample: with the feasible width `2^61` (`-w` accepts any
multiple of 8 below `2^64`) and a 1-byte buffer, the coordinate `(0, 8)` is
out of range — its linear bit index is `8 * 2^61` with byte index
`2^61 ≥ buffer_size` — yet the `size_t` computation wraps
(`8 * 2^61 mod 2^64 = 0`) and `getbit` reads bit 7 of byte 0, returning 1.
This run is reachable: on a 3-row terminal the window is capped to the
1-byte file and the render loop calls `getbit(buffer, 0, 8)`. -/
theorem getbit_oob_wrap_cex :
    (1 : Nat) ≤ ((8 : Int).toNat * 2 ^ 61 + (0 : Int).toNat) / 8 ∧
    getbit ⟨2 ^ 61, 1, false⟩ [128] 0 8 = 1 := by
  decide

/-- C2 (amended): for every coordinate outside the buffer's addressable range
(`x < 0`, `x ≥ width`, `y < 0`, or the linear bit index's byte at or past
`buffer_size`), `getbit` returns 0 under either bit-order setting, provided
the linear bit index `y*width + x` stays below `2^64` (no `size_t` wrap);
with widths of `2^61` and up the wrapped index can land back inside the
buffer. -/
theorem getbit_out_of_range_zero (cfg : BitCfg) (buf : List Nat) (x y : Int)
    (hnw : y.toNat * cfg.buffer_width + x.toNat < 2 ^ 64)
    (h : x < 0 ∨ (cfg.buffer_width : Int) ≤ x ∨ y < 0 ∨
      (0 ≤ x ∧ 0 ≤ y ∧ cfg.buffer_size ≤ (y.toNat * cfg.buffer_width + x.toNat) / 8)) :
    getbit cfg buf x y = 0 := by
  unfold getbit
  split
  · rfl
  · rename_i hA
    push_neg at hA
    have hB : cfg.buffer_size ≤ (y.toNat * cfg.buffer_width + x.toNat) / 8 := by
      rcases h with h | h | h | ⟨_, _, h⟩
      · omega
      · exact absurd h (by omega)
      · omega
      · exact h
    dsimp only
    rw [Nat.mod_eq_of_lt hnw]
    simp [hB]

/-- Witness for C2 (amended) at a concrete out-of-range input. -/
theorem getbit_out_of_range_zero_witness :
    getbit ⟨8, 2, false⟩ [255, 255] 9 0 = 0 :=
  getbit_out_of_range_zero ⟨8, 2, false⟩ [255, 255] 9 0 (by decide) (by decide)

/-- C3: the automaton step realizes Conway's rule with a dead border: a
horizontal blinker becomes the vertical triple and returns after a second
step; a single isolated live cell dies; the all-zero buffer is a fixed point
of arbitrarily many steps (for every configuration, either bit order). -/
theorem life_rule_props :
    step_life ⟨8, 5, false⟩ [0, 0, 56, 0, 0] = [0, 16, 16, 16, 0] ∧
    step_life ⟨8, 5, false⟩ [0, 16, 16, 16, 0] = [0, 0, 56, 0, 0] ∧
    step_life ⟨8, 3, false⟩ [0, 16, 0] = [0, 0, 0] ∧
    ∀ (cfg : BitCfg) (n : Nat),
      (step_life cfg)^[n] (List.replicate cfg.buffer_size 0) =
        List.replicate cfg.buffer_size 0 := by
  refine ⟨by decide, by decide, by decide, ?_⟩
  intro cfg n
  induction n with
  | zero => rfl
  | succ n ih => rw [Function.iterate_succ_apply', ih, step_life_zeros]

/-- C7: glyph table shape: index 0 is the blank space, index 63 the full
block, indices 21 and 42 are the half blocks (outside the sextant range
0x1FB00-0x1FB3B that every other non-corner entry lies in), and all 64
codepoints are pairwise distinct. -/
theorem sextant_chars_props :
    sextant_chars.getD 0 0 = 0x20 ∧ sextant_chars.getD 63 0 = 0x2588 ∧
    sextant_chars.getD 21 0 = 0x2590 ∧ sextant_chars.getD 42 0 = 0x258C ∧
    (∀ i ∈ List.range 64, i ≠ 0 → i ≠ 21 → i ≠ 42 → i ≠ 63 →
      0x1FB00 ≤ sextant_chars.getD i 0 ∧ sextant_chars.getD i 0 ≤ 0x1FB3B) ∧
    ¬(0x1FB00 ≤ sextant_chars.getD 21 0 ∧ sextant_chars.getD 21 0 ≤ 0x1FB3B) ∧
    ¬(0x1FB00 ≤ sextant_chars.getD 42 0 ∧ sextant_chars.getD 42 0 ≤ 0x1FB3B) ∧
    sextant_chars.length = 64 ∧ sextant_chars.Nodup := by
  decide

/-- C10: the renderer's 6-bit glyph index is below 64, hence a valid index
into the 64-entry glyph table, for every buffer, column offset and cell. -/
theorem cell_index_lt_64 (cfg : BitCfg) (buf : List Nat) (col : Int)
    (cx cy : Nat) :
    cell_index cfg buf col cx cy < 64 ∧
    cell_index cfg buf col cx cy < sextant_chars.length := by
  have hlen : sextant_chars.length = 64 := by decide
  rw [hlen, and_self]
  simp only [cell_index, shift_or_getbit]
  have h1 := getbit_le_one cfg buf (col + (cx : Int) * 2) ((cy : Int) * 3)
  have h2 := getbit_le_one cfg buf (col + (cx : Int) * 2 + 1) ((cy : Int) * 3)
  have h3 := getbit_le_one cfg buf (col + (cx : Int) * 2) ((cy : Int) * 3 + 1)
  have h4 := getbit_le_one cfg buf (col + (cx : Int) * 2 + 1) ((cy : Int) * 3 + 1)
  have h5 := getbit_le_one cfg buf (col + (cx : Int) * 2) ((cy : Int) * 3 + 2)
  have h6 := getbit_le_one cfg buf (col + (cx : Int) * 2 + 1) ((cy : Int) * 3 + 2)
  omega

theorem testByte_set_self (l : List Nat) (i s : Nat) (hi : i < l.length) :
    ((l.set i (l.getD i 0 ||| 1 <<< s)).getD i 0 >>> s) &&& 1 = 1 := by
  have h : (l.set i (l.getD i 0 ||| 1 <<< s)).getD i 0 = l.getD i 0 ||| 1 <<< s := by
    rw [List.getD_eq_getElem?_getD, List.getElem?_set_self hi]; rfl
  rw [h, shiftRight_and_one, Nat.testBit_or, Nat.one_shiftLeft,
      Nat.testBit_two_pow_self, Bool.or_true]
  rfl

theorem testByte_set_or (l : List Nat) (i i' s s' : Nat) (hi : i < l.length)
    (hdiff : i ≠ i' ∨ (i = i' ∧ s ≠ s')) :
    ((l.set i (l.getD i 0 ||| 1 <<< s)).getD i' 0 >>> s') &&& 1 =
      (l.getD i' 0 >>> s') &&& 1 := by
  rcases hdiff with h | ⟨hii, hss⟩
  · have hg : (l.set i (l.getD i 0 ||| 1 <<< s)).getD i' 0 = l.getD i' 0 := by
      simp [List.getD_eq_getElem?_getD, List.getElem?_set_ne h]
    rw [hg]
  · subst hii
    have hg : (l.set i (l.getD i 0 ||| 1 <<< s)).getD i 0 = l.getD i 0 ||| 1 <<< s := by
      rw [List.getD_eq_getElem?_getD, List.getElem?_set_self hi]; rfl
    rw [hg, shiftRight_and_one, shiftRight_and_one, Nat.testBit_or,
        Nat.one_shiftLeft, Nat.testBit_two_pow_of_ne hss, Bool.or_false]

/-- C6: for every in-range coordinate, `setbit` makes `getbit` of that
coordinate 1 and leaves `getbit` of every other in-range coordinate
unchanged, under either bit-order setting.  The bound
`buffer_size ≤ 2^61` states that the buffer is allocatable (a larger
`malloc`/`realloc` fails and the program exits before any bit access); it
makes every in-range linear bit index (below `8 * buffer_size`) wrap-free
in the `size_t` index arithmetic. -/
theorem setbit_getbit_round_trip (cfg : BitCfg) (buf : List Nat)
    (x y x' y' : Int) (hlen : buf.length = cfg.buffer_size)
    (hfeas : cfg.buffer_size ≤ 2 ^ 61)
    (hx0 : 0 ≤ x) (hx1 : x < (cfg.buffer_width : Int)) (hy0 : 0 ≤ y)
    (hb : (y.toNat * cfg.buffer_width + x.toNat) / 8 < cfg.buffer_size)
    (hx0' : 0 ≤ x') (hx1' : x' < (cfg.buffer_width : Int)) (hy0' : 0 ≤ y')
    (hb' : (y'.toNat * cfg.buffer_width + x'.toNat) / 8 < cfg.buffer_size) :
    getbit cfg (setbit cfg buf x y) x y = 1 ∧
    (¬(x' = x ∧ y' = y) →
      getbit cfg (setbit cfg buf x y) x' y' = getbit cfg buf x' y') := by
  have hnw : y.toNat * cfg.buffer_width + x.toNat < 2 ^ 64 := by omega
  have hnw' : y'.toNat * cfg.buffer_width + x'.toNat < 2 ^ 64 := by omega
  rw [setbit_in_range cfg buf x y hx0 hx1 hy0 hb hnw]
  constructor
  · rw [getbit_in_range cfg _ x y hx0 hx1 hy0 hb hnw]
    exact testByte_set_self buf _ _ (by rw [hlen]; exact hb)
  · intro hne
    rw [getbit_in_range cfg _ x' y' hx0' hx1' hy0' hb' hnw',
        getbit_in_range cfg buf x' y' hx0' hx1' hy0' hb' hnw']
    apply testByte_set_or buf _ _ _ _ (by rw [hlen]; exact hb)
    have hbine : y.toNat * cfg.buffer_width + x.toNat ≠
        y'.toNat * cfg.buffer_width + x'.toNat := by
      intro heq
      obtain ⟨hxx, hyy⟩ := bit_index_inj (show x.toNat < cfg.buffer_width by omega)
        (show x'.toNat < cfg.buffer_width by omega) heq
      exact hne ⟨by omega, by omega⟩
    by_cases hby : (y.toNat * cfg.buffer_width + x.toNat) / 8 =
        (y'.toNat * cfg.buffer_width + x'.toNat) / 8
    · right
      refine ⟨hby, ?_⟩
      have h8 : (y.toNat * cfg.buffer_width + x.toNat) % 8 ≠
          (y'.toNat * cfg.buffer_width + x'.toNat) % 8 := by omega
      cases hrev : cfg.reverse_byte <;> simp [hrev] <;> omega
    · left; exact hby

/-- Witness for C6 on a 2-row, 8-bit-wide MSB-first buffer: set (3,0),
check (3,0) reads 1 and (4,1) is unchanged. -/
theorem setbit_getbit_round_trip_witness :
    getbit ⟨8, 2, false⟩ (setbit ⟨8, 2, false⟩ [0, 0] 3 0) 3 0 = 1 ∧
    (¬((4 : Int) = 3 ∧ (1 : Int) = 0) →
      getbit ⟨8, 2, false⟩ (setbit ⟨8, 2, false⟩ [0, 0] 3 0) 4 1 =
        getbit ⟨8, 2, false⟩ [0, 0] 4 1) :=
  setbit_getbit_round_trip ⟨8, 2, false⟩ [0, 0] 3 0 4 1 (by decide) (by decide)
    (by decide) (by decide) (by decide) (by decide) (by decide) (by decide)
    (by decide) (by decide)

theorem clamp_offset_bounds (fd nbs : Nat) (off : Int)
    (h1 : nbs ≤ fd) (h2 : (fd : Int) < 2 ^ 63)
    (h3 : -(2 ^ 63) ≤ off) (h4 : off < 2 ^ 63) :
    0 ≤ clamp_offset fd nbs off ∧
    clamp_offset fd nbs off ≤ (fd : Int) - (nbs : Int) := by
  unfold clamp_offset usize64
  dsimp only
  split_ifs <;> omega

theorem clamp_col_bounds (bw tw : Nat) (col : Int)
    (hbw : bw < 2 ^ 32) (htw : tw < 2 ^ 16)
    (hc1 : -(2 ^ 31) ≤ col) (hc2 : col < 2 ^ 31) :
    0 ≤ clamp_col bw tw col ∧
    (2 * tw ≤ bw → clamp_col bw tw col ≤ (bw : Int) - 2 * (tw : Int)) := by
  unfold clamp_col usize64
  dsimp only
  split_ifs <;> constructor <;> try omega

theorem new_size_le (tw th : Nat) (st : ViewerState) :
    new_size tw th st ≤ st.fd_size := by
  unfold new_size
  split <;> omega

theorem new_width_lt (tw : Nat) (st : ViewerState)
    (hbw : st.buffer_width < 2 ^ 32) (htw : tw < 2 ^ 16) :
    new_width tw st < 2 ^ 32 := by
  unfold new_width round8
  split_ifs <;> omega

/-- C4 counterexample: with terminal 5x3 and requested `sourceOffset = -1`
equal to the stale `buffer_offset` (state `st_stale`, reachable — see its
doc), `update` skips the fetch branch, leaves `offset = -1 < 0`, and clamps
`col_offset` to `0`, which exceeds `width - 2*terminalWidth = 8 - 10 = -2`:
the claimed invariant fails on both conjuncts. -/
theorem update_clamp_cex :
    ¬(0 ≤ ((update (List.replicate 100 0) 5 3 st_stale).1).offset ∧
      ((update (List.replicate 100 0) 5 3 st_stale).1).offset ≤
        (((update (List.replicate 100 0) 5 3 st_stale).1).fd_size : Int) -
          (((update (List.replicate 100 0) 5 3 st_stale).1).buffer_size : Int) ∧
      0 ≤ ((update (List.replicate 100 0) 5 3 st_stale).1).col_offset ∧
      ((update (List.replicate 100 0) 5 3 st_stale).1).col_offset ≤
        (((update (List.replicate 100 0) 5 3 st_stale).1).buffer_width : Int) -
          2 * 5) := by
  decide

/-- C4 (amended): after `update`, if the terminal dimensions or the requested
`sourceOffset` differ from those of the last fetch then
`0 ≤ sourceOffset ≤ sourceSize - windowSize`; and in every case
`0 ≤ columnOffset`, with `columnOffset ≤ width - 2*terminalWidth` whenever
`2*terminalWidth ≤ width`.  The range hypotheses state that the stored values
fit their C types (`off_t`, `int`, `unsigned short` terminal width). -/
theorem update_clamp_bounds (src : List Nat) (tw th : Nat) (st : ViewerState)
    (hfd : (st.fd_size : Int) < 2 ^ 63)
    (hoff1 : -(2 ^ 63) ≤ st.offset) (hoff2 : st.offset < 2 ^ 63)
    (hbw : st.buffer_width < 2 ^ 32) (htw : tw < 2 ^ 16)
    (hcol1 : -(2 ^ 31) ≤ st.col_offset) (hcol2 : st.col_offset < 2 ^ 31) :
    (((th : Int) ≠ st.last_term_h ∨ (tw : Int) ≠ st.last_term_w ∨
        st.buffer_offset ≠ st.offset) →
      0 ≤ ((update src tw th st).1).offset ∧
      ((update src tw th st).1).offset ≤
        (st.fd_size : Int) - (((update src tw th st).1).buffer_size : Int)) ∧
    0 ≤ ((update src tw th st).1).col_offset ∧
    (2 * tw ≤ ((update src tw th st).1).buffer_width →
      ((update src tw th st).1).col_offset ≤
        (((update src tw th st).1).buffer_width : Int) - 2 * (tw : Int)) := by
  unfold update
  split
  · have hno := clamp_offset_bounds st.fd_size (new_size tw th st) st.offset
      (new_size_le tw th st) hfd hoff1 hoff2
    have hnc := clamp_col_bounds (new_width tw st) tw st.col_offset
      (new_width_lt tw st hbw htw) htw hcol1 hcol2
    simp only [update_fetch]
    exact ⟨fun _ => ⟨hno.1, hno.2⟩, hnc.1, fun hh => hnc.2 hh⟩
  · rename_i hc
    have hnc := clamp_col_bounds st.buffer_width tw st.col_offset hbw htw hcol1 hcol2
    exact ⟨fun hh => absurd hh hc, hnc.1, fun hh => hnc.2 hh⟩

/-- Witness for C4 at the concrete state `st_tail` (first fetch pending,
terminal 4x1). -/
theorem update_clamp_bounds_witness :
    (((1 : Int) ≠ st_tail.last_term_h ∨ (4 : Int) ≠ st_tail.last_term_w ∨
        st_tail.buffer_offset ≠ st_tail.offset) →
      0 ≤ ((update (List.replicate 10 7) 4 1 st_tail).1).offset ∧
      ((update (List.replicate 10 7) 4 1 st_tail).1).offset ≤
        (st_tail.fd_size : Int) -
          (((update (List.replicate 10 7) 4 1 st_tail).1).buffer_size : Int)) ∧
    0 ≤ ((update (List.replicate 10 7) 4 1 st_tail).1).col_offset ∧
    (2 * 4 ≤ ((update (List.replicate 10 7) 4 1 st_tail).1).buffer_width →
      ((update (List.replicate 10 7) 4 1 st_tail).1).col_offset ≤
        (((update (List.replicate 10 7) 4 1 st_tail).1).buffer_width : Int) -
          2 * (4 : Int)) :=
  update_clamp_bounds (List.replicate 10 7) 4 1 st_tail (by decide) (by decide)
    (by decide) (by decide) (by decide) (by decide) (by decide)

/-- C5 counterexample: 10-byte source, requested offset 8, width 8, terminal
4x1 (state `st_tail`): the code computes window size
`min(ceil(1*3*8/8), sourceSize) = 3` and pulls the offset back to 7, while
the claimed formula `min(ceil(...), sourceSize - sourceOffset, sourceSize)`
gives 2. -/
theorem window_size_cex :
    ((update (List.replicate 10 7) 4 1 st_tail).1).buffer_size = 3 ∧
    window_size_claimed 1 st_tail.buffer_width st_tail.fd_size st_tail.offset = 2 ∧
    (3 : Nat) ≠ 2 := by
  decide

/-- C5 (amended): on a refresh that refetches, with the stored values in
their normal C ranges (`off_t` offset and file size, width below `2^32`,
terminal dimensions from `unsigned short` — so the `size_t` product
`term_h*3*width` does not wrap), the window byte size is
`ceil(terminalHeight*3*width/8)` capped at `sourceSize` alone; the remaining
size bound holds only for the clamped (post-refresh) offset:
`windowSize ≤ sourceSize - sourceOffset'`. -/
theorem window_size_amended (src : List Nat) (tw th : Nat) (st : ViewerState)
    (hch : (th : Int) ≠ st.last_term_h ∨ (tw : Int) ≠ st.last_term_w ∨
      st.buffer_offset ≠ st.offset)
    (hfd : (st.fd_size : Int) < 2 ^ 63)
    (hoff1 : -(2 ^ 63) ≤ st.offset) (hoff2 : st.offset < 2 ^ 63)
    (hbw : st.buffer_width < 2 ^ 32) (htw : tw < 2 ^ 16) (hth : th < 2 ^ 16) :
    ((update src tw th st).1).buffer_size =
      min (ceil_div8 (th * 3 * ((update src tw th st).1).buffer_width))
        st.fd_size ∧
    (((update src tw th st).1).buffer_size : Int) ≤
      (st.fd_size : Int) - ((update src tw th st).1).offset := by
  unfold update
  rw [if_pos hch]
  simp only [update_fetch]
  constructor
  · have hnn : th * 3 * new_width tw st < 2 ^ 64 := by
      calc th * 3 * new_width tw st < 2 ^ 18 * 2 ^ 32 :=
            mul_lt_mul'' (by omega) (new_width_lt tw st hbw htw)
              (Nat.zero_le _) (Nat.zero_le _)
        _ < 2 ^ 64 := by norm_num
    unfold new_size
    rw [Nat.mod_eq_of_lt hnn, Nat.min_def]
    split_ifs <;> omega
  · have hno := clamp_offset_bounds st.fd_size (new_size tw th st) st.offset
      (new_size_le tw th st) hfd hoff1 hoff2
    omega

/-- Witness for C5 (amended) at the concrete state `st_tail`. -/
theorem window_size_amended_witness :
    ((update (List.replicate 10 7) 4 1 st_tail).1).buffer_size =
      min (ceil_div8 (1 * 3 * ((update (List.replicate 10 7) 4 1 st_tail).1).buffer_width))
        st_tail.fd_size ∧
    (((update (List.replicate 10 7) 4 1 st_tail).1).buffer_size : Int) ≤
      (st_tail.fd_size : Int) - ((update (List.replicate 10 7) 4 1 st_tail).1).offset :=
  window_size_amended (List.replicate 10 7) 4 1 st_tail (by decide) (by decide)
    (by decide) (by decide) (by decide) (by decide) (by decide)

theorem update_fst_settled (src : List Nat) (tw th : Nat) (st : ViewerState) :
    ((update src tw th st).1).last_term_h = (th : Int) ∧
    ((update src tw th st).1).last_term_w = (tw : Int) ∧
    ((update src tw th st).1).buffer_offset = ((update src tw th st).1).offset := by
  unfold update
  split
  · exact ⟨rfl, rfl, rfl⟩
  · rename_i h
    push_neg at h
    exact ⟨h.1.symm, h.2.1.symm, h.2.2⟩

theorem update_snd_eq_false (src : List Nat) (tw th : Nat) (st : ViewerState)
    (e1 : st.last_term_h = (th : Int)) (e2 : st.last_term_w = (tw : Int))
    (e3 : st.buffer_offset = st.offset) :
    (update src tw th st).2 = false := by
  unfold update
  rw [if_neg (by rw [e1, e2, e3]; simp)]

/-- C8: calling `update` twice with the same terminal dimensions and without
touching the offset in between never runs the seek-and-read branch the second
time: the second call returns `fetched = false`. -/
theorem update_no_refetch (src : List Nat) (tw th : Nat) (st : ViewerState) :
    (update src tw th (update src tw th st).1).2 = false := by
  obtain ⟨h1, h2, h3⟩ := update_fst_settled src tw th st
  exact update_snd_eq_false src tw th _ h1 h2 h3

theorem usage_exit_exited {cmd : String} {pre : List String} {c : Int}
    {out : List String} (h : usage_exit cmd pre = ParseOutcome.exited c out) :
    c = 0 ∧ out ≠ [] := by
  unfold usage_exit at h
  injection h with h1 h2
  refine ⟨h1.symm, ?_⟩
  rw [← h2]
  simp [usage_lines]

/-- C9 counterexample: the argument error `-w7` (width not a multiple of 8)
prints its cause to stderr but then exits through `usage()`, whose exit code
is 0 — not non-zero as claimed. -/
theorem argv_w7_exits_zero :
    parse_args (fun _ => none) "bitraster" ["-w7"] init_parse_st =
      ParseOutcome.exited 0
        ("Width is not even multiple of 8\n\n" ::
          usage_lines (cmd_filename "bitraster")) := by
  rfl

/-- C9 (amended): every exit taken during argument parsing — including every
argument error — goes through `usage()` and has exit code 0, with the cause
and usage text printed to the error stream (the exit output is never empty);
normal exits return 0; only the I/O and allocation `ERROR` exits are
non-zero (-1). -/
theorem exit_code_classes :
    (∀ (fs : String → Option Nat) (cmd : String) (args : List String)
        (st : ParseSt) (c : Int) (out : List String),
      parse_args fs cmd args st = ParseOutcome.exited c out → c = 0 ∧ out ≠ []) ∧
    normal_exit_code = 0 ∧ error_exit_code ≠ 0 := by
  refine ⟨fun fs cmd args => ?_, rfl, by decide⟩
  induction args with
  | nil =>
    intro st c out h
    unfold parse_args at h
    split at h <;> exact absurd h (by simp)
  | cons a rest ih =>
    intro st c out h
    unfold parse_args at h
    dsimp only at h
    split_ifs at h with h1 h2 h3 h4 h5 h6 h7 h8
    · exact usage_exit_exited h
    · exact ih _ c out h
    · exact usage_exit_exited h
    · exact ih _ c out h
    · exact usage_exit_exited h
    · exact ih _ c out h
    · exact ih _ c out h
    · split at h
      · exact usage_exit_exited h
      · exact ih _ c out h
    · exact usage_exit_exited h

/-- Witness for C9 (amended) on the failing-open path `-x`. -/
theorem exit_code_classes_witness :
    (0 : Int) = 0 ∧
    ("Path error: %s\n\n" :: usage_lines (cmd_filename "bitraster")) ≠ [] :=
  exit_code_classes.1 (fun _ => none) "bitraster" ["-x"] init_parse_st 0
    ("Path error: %s\n\n" :: usage_lines (cmd_filename "bitraster")) (by rfl)

end Bitraster
